import Mathlib

/-!
Shallow embedding of the ticker-list parser and fetch-retry loop of
`yahoo_crypto_price_history.py`.

Strings are modelled as `List Char` (`Str`).  Python string primitives
(`strip`, `upper`, `split`, `splitlines`, `startswith`) are modelled on the
ASCII fragment relevant to this program: `str.upper` as per-character ASCII
uppercasing, and whitespace as the six ASCII whitespace characters that
Python's `str.strip`/`str.split`/regex `\s` recognise.  The Unicode bullet
`•` (U+2022) appearing in `_BULLET_PREFIX` is carried through exactly.
-/

/-- Python-level strings: a list of unicode characters. -/
abbrev Str := List Char

/-- ASCII whitespace as recognised by Python's `str.strip`/`str.split`/`\s`:
space, tab, newline, carriage return, vertical tab, form feed. -/
def isSpaceCh (c : Char) : Bool :=
  c.toNat = 32 || c.toNat = 9 || c.toNat = 10 || c.toNat = 13 ||
  c.toNat = 11 || c.toNat = 12

/-- ASCII upper-case letter `A`–`Z`. -/
def isAsciiUpperCh (c : Char) : Bool :=
  65 ≤ c.toNat && c.toNat ≤ 90

/-- ASCII lower-case letter `a`–`z`. -/
def isAsciiLowerCh (c : Char) : Bool :=
  97 ≤ c.toNat && c.toNat ≤ 122

/-- ASCII letter, the `[A-Za-z]` class of the source regexes. -/
def isAsciiAlphaCh (c : Char) : Bool :=
  isAsciiUpperCh c || isAsciiLowerCh c

/-- ASCII digit, the `\d` / `[0-9]` class of the source regexes. -/
def isDigitCh (c : Char) : Bool :=
  48 ≤ c.toNat && c.toNat ≤ 57

/-- First-character class of `_TICKER_RE`: `[A-Za-z\^]` (94 is `^`). -/
def isTickerStart (c : Char) : Bool :=
  isAsciiAlphaCh c || c.toNat = 94

/-- Tail-character class of `_TICKER_RE`: `[A-Za-z0-9.\-=]`
(46 is `.`, 45 is `-`, 61 is `=`). -/
def isTickerChar (c : Char) : Bool :=
  isAsciiAlphaCh c || isDigitCh c || c.toNat = 46 || c.toNat = 45 || c.toNat = 61

/-- ASCII model of Python `str.upper` on one character. -/
def upperChar (c : Char) : Char :=
  if isAsciiLowerCh c then Char.ofNat (c.toNat - 32) else c

/-- ASCII model of Python `str.lower` on one character (used by
`str.title` in the column renaming of `fetch_history`). -/
def lowerChar (c : Char) : Char :=
  if isAsciiUpperCh c then Char.ofNat (c.toNat + 32) else c

/-- Python `str.lstrip()` (whitespace only): drop leading whitespace. -/
def lstripWs (s : Str) : Str :=
  s.dropWhile isSpaceCh

/-- Python `str.strip()`: drop leading and trailing whitespace. -/
def pstrip (s : Str) : Str :=
  ((lstripWs s).reverse.dropWhile isSpaceCh).reverse

/-- Source `_normalize_symbol`: `sym.strip().upper()`. -/
def _normalize_symbol (sym : Str) : Str :=
  (pstrip sym).map upperChar

/-- Accumulator form of the loop in source `_dedupe`: `seen` is the set of
already-emitted symbols; an element is kept when it is truthy (non-empty)
and not previously seen. -/
def dedupeAux (seen : List Str) : List Str → List Str
  | [] => []
  | x :: xs =>
    if x ≠ [] ∧ x ∉ seen then x :: dedupeAux (x :: seen) xs
    else dedupeAux seen xs

/-- Source `_dedupe`: keep the first occurrence of each non-empty string,
preserving order. -/
def _dedupe (items : List Str) : List Str :=
  dedupeAux [] items

/-- Specification-side definition, following the spec's words for the
deduplication invariant: each retained element sits at the position of its
first occurrence in the scan order, later duplicates are dropped (and, as in
the code's truthiness test, empty entries are dropped). -/
def specFirstSeen : List Str → List Str
  | [] => []
  | x :: xs =>
    if x = [] then specFirstSeen xs
    else x :: specFirstSeen (xs.filter (fun y => y ≠ x))
termination_by l => l.length
decreasing_by
  all_goals simp only [List.length_cons]
  all_goals have h1 := List.length_filter_le (fun y => decide (y ≠ x)) xs
  all_goals omega

/-- Source `_TICKER_RE.fullmatch`: the whole string matches
`[A-Za-z\^][A-Za-z0-9.\-=]*`. -/
def tickerFullmatch : Str → Bool
  | [] => false
  | c :: cs => isTickerStart c && cs.all isTickerChar

/-- Split a list on every occurrence of a separator character; models
Python `str.split(sep)` for a one-character `sep` (empty pieces kept). -/
def splitOnChar (sep : Char) : Str → List Str
  | [] => [[]]
  | c :: cs =>
    match splitOnChar sep cs with
    | [] => [[]]
    | h :: t => if c = sep then [] :: h :: t else (c :: h) :: t

/-- Model of Python `str.splitlines()`, restricted to `\n` line endings
(the only line terminator this program's claims exercise): split on `\n`,
with no empty trailing line for a terminating `\n`. -/
def splitlines (s : Str) : List Str :=
  if s = [] then []
  else if s.getLast? = some '\n' then (splitOnChar '\n' s).dropLast
  else splitOnChar '\n' s

/-- Accumulator for `splitWs`: `cur` is the current word, reversed. -/
def splitWsAux (cur : Str) : Str → List Str
  | [] => if cur = [] then [] else [cur.reverse]
  | c :: cs =>
    if isSpaceCh c then
      if cur = [] then splitWsAux [] cs else cur.reverse :: splitWsAux [] cs
    else splitWsAux (c :: cur) cs

/-- Python `str.split()` with no argument: split on whitespace runs,
dropping empty pieces. -/
def splitWs (s : Str) : List Str :=
  splitWsAux [] s

/-- Split a list at the first occurrence of the (non-empty) pattern `pat`:
`some (before, after)` when `pat` occurs, `none` otherwise.  Models the
combination of Python `pat in line` and `line.split(pat, 1)`. -/
def breakOn (pat : Str) : Str → Option (Str × Str)
  | [] => if pat = [] then some ([], []) else none
  | c :: cs =>
    if pat.isPrefixOf (c :: cs) then some ([], (c :: cs).drop pat.length)
    else
      match breakOn pat cs with
      | some (l, r) => some (c :: l, r)
      | none => none

/-- Source `_NUM_PREFIX.sub("", line)`: remove a leading match of
`^\s*\$?\d+([.)\:])?\s*(-\s*)?` (optional whitespace, optional `$`, at
least one digit, optional single `.`/`)`/`:`, optional whitespace, optional
`-` with trailing whitespace); when the regex does not match, the line is
returned unchanged.  All regex components are greedy and character-class
disjoint, so greedy left-to-right consumption is exact. -/
def numPrefixSub (line : Str) : Str :=
  let s0 := line.dropWhile isSpaceCh
  let s1 := match s0 with
    | '$' :: r => r
    | _ => s0
  match s1 with
  | c :: _ =>
    if isDigitCh c then
      let s2 := s1.dropWhile isDigitCh
      let s3 := match s2 with
        | p :: r => if p = '.' ∨ p = ')' ∨ p = ':' then r else s2
        | [] => s2
      let s4 := s3.dropWhile isSpaceCh
      match s4 with
      | '-' :: r => r.dropWhile isSpaceCh
      | _ => s4
    else line
  | [] => line

/-- Source `_BULLET_PREFIX.sub("", line)`: remove a leading match of
`^\s*[-*•]\s*` (a `-`, `*` or `•` bullet with surrounding whitespace);
when there is no bullet, the line is returned unchanged. -/
def bulletSub (line : Str) : Str :=
  match line.dropWhile isSpaceCh with
  | c :: r =>
    if c = '-' ∨ c = '*' ∨ c = '•' then r.dropWhile isSpaceCh
    else line
  | [] => line

/-- Source dash rule: when the line contains the literal substring
`" - "`, replace it by the stripped text before the first occurrence,
but only when that stripped left part is non-empty. -/
def dashTrunc (line : Str) : Str :=
  match breakOn (' ' :: '-' :: ' ' :: []) line with
  | some (l, _) => if pstrip l ≠ [] then pstrip l else line
  | none => line

/-- The delimiter list `[",", "|", ";", "\t"]` checked in order by
`load_tickers_from_text`. -/
def textDelims : List Char :=
  [',', '|', ';', '\t']

/-- The delimiter-split / whitespace-token step of `load_tickers_from_text`:
the `for sep in [...]` loop with `break`, and its `else` branch. -/
def lineSymbols (line : Str) : List Str :=
  match textDelims.find? (fun sep => line.contains sep) with
  | some sep =>
    let parts := ((splitOnChar sep line).map pstrip).filter (fun p => p ≠ [])
    (parts.filter tickerFullmatch).map _normalize_symbol
  | none =>
    match (splitWs line).find? tickerFullmatch with
    | some tok => [_normalize_symbol tok]
    | none => []

/-- One iteration of the line loop of `load_tickers_from_text`: strip,
skip blank and `#`-comment lines, strip number/bullet prefixes, apply the
dash rule, then extract the line's symbols. -/
def processLine (raw : Str) : List Str :=
  if pstrip raw = [] ∨ (pstrip raw).head? = some '#' then []
  else lineSymbols (dashTrunc (bulletSub (numPrefixSub (pstrip raw))))

/-- The symbols collected by `load_tickers_from_text` before deduplication,
in scan order. -/
def textScan (content : Str) : List Str :=
  (splitlines content).flatMap processLine

/-- Source `load_tickers_from_text`, as a function of the file content. -/
def load_tickers_from_text (content : Str) : List Str :=
  _dedupe (textScan content)

/-- Parsed JSON values, the result type of Python `json.loads`.  Numbers
are kept as their raw source text: no claim depends on numeric values. -/
inductive JVal where
  | str (s : Str)
  | num (raw : Str)
  | boolean (b : Bool)
  | null
  | arr (elems : List JVal)
  | obj (fields : List (Str × JVal))

/-- Python `dict` lookup on the association-list model of a JSON object;
objects built by the parser have unique keys (later duplicates overwrite),
so the first hit is the binding. -/
def dictGet (o : List (Str × JVal)) (k : Str) : Option JVal :=
  (o.find? (fun kv => kv.1 = k)).map (fun kv => kv.2)

/-- Source `COMMON_COLS`. -/
def COMMON_COLS : List Str :=
  ["ticker".toList, "tickers".toList, "symbol".toList, "symbols".toList,
   "Ticker".toList, "Tickers".toList, "Symbol".toList, "Symbols".toList,
   "Ticker Symbol".toList, "SYMBOL".toList, "TICKER".toList]

/-- The key list scanned by `_extract_from_dicts`:
`COMMON_COLS + ["TickerSymbol", "RIC", "Yahoo", "YahooSymbol"]`. -/
def extractKeys : List Str :=
  COMMON_COLS ++ ["TickerSymbol".toList, "RIC".toList, "Yahoo".toList, "YahooSymbol".toList]

/-- The inner loop of `_extract_from_dicts` for one object: the first key of
`extractKeys` present with a string value that is non-empty after stripping
yields that value normalized; otherwise the object is skipped. -/
def extractFromDict (o : List (Str × JVal)) : Option Str :=
  extractKeys.findSome? (fun k =>
    match dictGet o k with
    | some (JVal.str s) => if pstrip s = [] then none else some (_normalize_symbol s)
    | _ => none)

/-- Source `_extract_from_dicts` over a list of objects. -/
def _extract_from_dicts (objs : List (List (Str × JVal))) : List Str :=
  objs.flatMap (fun o => (extractFromDict o).toList)

/-- Errors raised by the loaders (`ValueError`s and library errors in the
source, by reason). -/
inductive LoadError where
  /-- "Unsupported JSON structure. Expect a list of strings or list of objects." -/
  | unsupportedJsonStructure
  /-- "--col '...' not found. Available: [...]": carries the available headers. -/
  | columnNotFound (available : List Str)
  /-- `pandas` `IndexError` for an out-of-range integer column index. -/
  | indexError
  /-- `json.JSONDecodeError` from `json.loads` on malformed input. -/
  | parseError
  /-- `pandas.errors.EmptyDataError` from `read_csv` on an empty file. -/
  | emptyDataError
deriving DecidableEq

/-- Python `isinstance(x, str)` on a JSON value, paired with the value. -/
def jStr? : JVal → Option Str
  | JVal.str s => some s
  | _ => none

/-- Python `isinstance(x, dict)` on a JSON value, paired with the fields. -/
def jObj? : JVal → Option (List (Str × JVal))
  | JVal.obj o => some o
  | _ => none

/-- The `all(isinstance(x, str) for x in data)` test of
`load_tickers_from_json` (with `data` a list). -/
def allStrings (xs : List JVal) : Bool :=
  xs.all (fun x => (jStr? x).isSome)

/-- The `all(isinstance(x, dict) for x in data)` test of
`load_tickers_from_json` (with `data` a list). -/
def allDicts (xs : List JVal) : Bool :=
  xs.all (fun x => (jObj? x).isSome)

/-- Source `load_tickers_from_json` on the already-parsed document.  Under
`allStrings` (resp. `allDicts`) every element is a string (resp. object), so
the `filterMap` projections are exactly the source comprehensions. -/
def load_tickers_from_json (data : JVal) : Except LoadError (List Str) :=
  match data with
  | JVal.arr xs =>
    if allStrings xs then
      Except.ok (_dedupe ((xs.filterMap jStr?).map _normalize_symbol))
    else if allDicts xs then
      Except.ok (_dedupe (_extract_from_dicts (xs.filterMap jObj?)))
    else Except.error LoadError.unsupportedJsonStructure
  | _ => Except.error LoadError.unsupportedJsonStructure

/-- One parsed JSON-lines value in the loop of `load_tickers_from_jsonl`:
strings are taken directly, objects go through `_extract_from_dicts`,
any other value is silently skipped. -/
def jsonlVal : JVal → List Str
  | JVal.str s => [_normalize_symbol s]
  | JVal.obj o => (extractFromDict o).toList
  | _ => []

/-- The symbols collected by `load_tickers_from_jsonl` before
deduplication, in scan order. -/
def jsonlScan (vals : List JVal) : List Str :=
  vals.flatMap jsonlVal

/-- Source `load_tickers_from_jsonl` after the per-line `json.loads` step:
`vals` are the parsed values of the non-blank lines, in file order. -/
def load_tickers_from_jsonl (vals : List JVal) : List Str :=
  _dedupe (jsonlScan vals)

/-- JSON whitespace skipped by `json.loads` between tokens:
space, tab, newline, carriage return. -/
def jskip (s : Str) : Str :=
  s.dropWhile (fun c => c = ' ' || c = '\t' || c = '\n' || c = '\r')

/-- A hexadecimal digit's value, for `\uXXXX` string escapes. -/
def hexVal? (c : Char) : Option Nat :=
  if isDigitCh c then some (c.toNat - 48)
  else if 65 ≤ c.toNat ∧ c.toNat ≤ 70 then some (c.toNat - 55)
  else if 97 ≤ c.toNat ∧ c.toNat ≤ 102 then some (c.toNat - 87)
  else none

/-- Parse the body of a JSON string literal after the opening quote,
returning the decoded characters and the remainder after the closing
quote.  Escapes `\" \\ \/ \b \f \n \r \t` and `\uXXXX` (taken as a single
scalar; surrogate pairing is not modelled) are decoded as by `json.loads`;
an invalid escape or a missing closing quote fails. -/
def parseJStringBody : Str → Option (Str × Str)
  | [] => none
  | '"' :: rest => some ([], rest)
  | '\\' :: e :: rest =>
    if e = 'u' then
      match rest with
      | a :: b :: c :: d :: rest2 =>
        match hexVal? a, hexVal? b, hexVal? c, hexVal? d with
        | some va, some vb, some vc, some vd =>
          (parseJStringBody rest2).map (fun (s, r) =>
            (Char.ofNat (va * 4096 + vb * 256 + vc * 16 + vd) :: s, r))
        | _, _, _, _ => none
      | _ => none
    else
      match
        (if e = '"' then some '"' else if e = '\\' then some '\\'
         else if e = '/' then some '/' else if e = 'b' then some '\x08'
         else if e = 'f' then some '\x0c' else if e = 'n' then some '\n'
         else if e = 'r' then some '\r' else if e = 't' then some '\t'
         else none) with
      | some c => (parseJStringBody rest).map (fun (s, r) => (c :: s, r))
      | none => none
  | c :: rest => (parseJStringBody rest).map (fun (s, r) => (c :: s, r))

/-- Parse a JSON number starting at a digit or `-`: optional minus, an
integer part, optional fraction and exponent, as in the JSON grammar.
The raw token text is kept. -/
def parseJNumber (s : Str) : Option (Str × Str) :=
  let (neg, s1) := match s with
    | '-' :: r => (['-'], r)
    | _ => (([] : Str), s)
  let intPart := s1.takeWhile isDigitCh
  if intPart = [] then none
  else
    let s2 := s1.drop intPart.length
    let (frac, s3) := match s2 with
      | '.' :: r =>
        let ds := r.takeWhile isDigitCh
        if ds = [] then (none, s2) else (some ('.' :: ds), r.drop ds.length)
      | _ => (none, s2)
    match frac, s3 with
    | none, '.' :: _ => none
    | _, _ =>
      let (expo, s4) := match s3 with
        | e :: r =>
          if e = 'e' ∨ e = 'E' then
            let (sgn, r2) := match r with
              | '+' :: r3 => (['+'], r3)
              | '-' :: r3 => (['-'], r3)
              | _ => (([] : Str), r)
            let ds := r2.takeWhile isDigitCh
            if ds = [] then (none, s3) else (some (e :: (sgn ++ ds)), r2.drop ds.length)
          else (none, s3)
        | [] => (none, s3)
      match expo, s4 with
      | none, e :: _ =>
        if e = 'e' ∨ e = 'E' then none
        else some (neg ++ intPart ++ (frac.getD []) ++ [], s4)
      | _, _ => some (neg ++ intPart ++ (frac.getD []) ++ (expo.getD []), s4)

/-- Insert a key/value pair into the association-list model of a `dict`:
a later binding for an existing key overwrites its value in place, as when
`json.loads` builds a Python `dict` from repeated object keys. -/
def dictInsert (fields : List (Str × JVal)) (k : Str) (v : JVal) : List (Str × JVal) :=
  if fields.any (fun kv => kv.1 = k) then
    fields.map (fun kv => if kv.1 = k then (k, v) else kv)
  else fields ++ [(k, v)]

mutual

/-- Recursive-descent model of `json.loads`'s value grammar.  `fuel`
strictly decreases on every recursive call; `jsonLoads` supplies enough for
any input of the given length. -/
def parseJVal (fuel : Nat) (s : Str) : Option (JVal × Str) :=
  match fuel with
  | 0 => none
  | fuel + 1 =>
    match jskip s with
    | [] => none
    | c :: rest =>
      if c = '"' then (parseJStringBody rest).map (fun (t, r) => (JVal.str t, r))
      else if c = '{' then
        match jskip rest with
        | '}' :: r2 => some (JVal.obj [], r2)
        | _ => parseJObjFields fuel rest []
      else if c = '[' then
        match jskip rest with
        | ']' :: r2 => some (JVal.arr [], r2)
        | _ => parseJArrElems fuel rest []
      else if c = 't' then
        match rest with
        | 'r' :: 'u' :: 'e' :: r2 => some (JVal.boolean true, r2)
        | _ => none
      else if c = 'f' then
        match rest with
        | 'a' :: 'l' :: 's' :: 'e' :: r2 => some (JVal.boolean false, r2)
        | _ => none
      else if c = 'n' then
        match rest with
        | 'u' :: 'l' :: 'l' :: r2 => some (JVal.null, r2)
        | _ => none
      else if isDigitCh c ∨ c = '-' then
        (parseJNumber (c :: rest)).map (fun (t, r) => (JVal.num t, r))
      else none

/-- Parse the remaining `"key": value` fields of a JSON object (after the
opening brace, with at least one field pending), accumulating into `acc`. -/
def parseJObjFields (fuel : Nat) (s : Str) (acc : List (Str × JVal)) :
    Option (JVal × Str) :=
  match fuel with
  | 0 => none
  | fuel + 1 =>
    match jskip s with
    | '"' :: rest =>
      match parseJStringBody rest with
      | some (k, r1) =>
        match jskip r1 with
        | ':' :: r2 =>
          match parseJVal fuel r2 with
          | some (v, r3) =>
            match jskip r3 with
            | ',' :: r4 => parseJObjFields fuel r4 (dictInsert acc k v)
            | '}' :: r4 => some (JVal.obj (dictInsert acc k v), r4)
            | _ => none
          | none => none
        | _ => none
      | none => none
    | _ => none

/-- Parse the remaining elements of a JSON array (after the opening
bracket, with at least one element pending), accumulating into `acc`. -/
def parseJArrElems (fuel : Nat) (s : Str) (acc : List JVal) :
    Option (JVal × Str) :=
  match fuel with
  | 0 => none
  | fuel + 1 =>
    match parseJVal fuel s with
    | some (v, r1) =>
      match jskip r1 with
      | ',' :: r2 => parseJArrElems fuel r2 (acc ++ [v])
      | ']' :: r2 => some (JVal.arr (acc ++ [v]), r2)
      | _ => none
    | none => none

end

/-- Model of Python `json.loads`: parse one JSON document, requiring only
whitespace after it; `none` is a `json.JSONDecodeError`.  In particular
`jsonLoads []` (an empty file) is always an error: the JSON grammar has no
empty document. -/
def jsonLoads (s : Str) : Option JVal :=
  match parseJVal (s.length + 1) s with
  | some (v, rest) => if jskip rest = [] then some v else none
  | none => none

/-- Source `load_tickers_from_json` as a function of the file content:
`json.loads` then the shape dispatch. -/
def loadJsonContent (content : Str) : Except LoadError (List Str) :=
  match jsonLoads content with
  | some data => load_tickers_from_json data
  | none => Except.error LoadError.parseError

/-- The per-line parse loop of `load_tickers_from_jsonl`: strip each line,
skip blank lines, `json.loads` the rest; the first malformed line aborts
the whole load (the source has no try/except here). -/
def parseJsonlLines : List Str → Option (List JVal)
  | [] => some []
  | l :: ls =>
    let t := pstrip l
    if t = [] then parseJsonlLines ls
    else
      match jsonLoads t with
      | some v => (parseJsonlLines ls).map (fun vs => v :: vs)
      | none => none

/-- Source `load_tickers_from_jsonl` as a function of the file content. -/
def loadJsonlContent (content : Str) : Except LoadError (List Str) :=
  match parseJsonlLines (splitlines content) with
  | some vals => Except.ok (load_tickers_from_jsonl vals)
  | none => Except.error LoadError.parseError

/-- The text `pandas` prints for a missing value once a column is converted
with `astype(str)`: missing cells of a ragged CSV row become the string
`"nan"`. -/
def nanCell : Str :=
  'n' :: 'a' :: 'n' :: []

/-- Model of Python `int(s)` on a string: optional surrounding whitespace,
an optional sign, then at least one digit (digit-group underscores are not
modelled); `none` is a `ValueError`. -/
def pyInt (s : Str) : Option Int :=
  let t := pstrip s
  let (sign, ds) : Int × Str := match t with
    | '+' :: r => (1, r)
    | '-' :: r => (-1, r)
    | _ => (1, t)
  if ds ≠ [] ∧ ds.all isDigitCh then
    some (sign * Int.ofNat (ds.foldl (fun n c => n * 10 + (c.toNat - 48)) 0))
  else none

/-- The cell of a row at a resolved column position, with the `pandas`
`NaN`-fill for short rows rendered by `astype(str)` as `"nan"`. -/
def cellAt (row : List Str) (k : Nat) : Str :=
  (row.get? k).getD nanCell

/-- Model of `df.iloc[:, idx]` for an integer index: Python/`pandas`
negative indices count from the end; an out-of-range index is an
`IndexError` (uncaught in the source). -/
def ilocColumn (header : List Str) (rows : List (List Str)) (i : Int) :
    Except LoadError (List Str) :=
  let n : Int := Int.ofNat header.length
  let j : Int := if i < 0 then n + i else i
  if 0 ≤ j ∧ j < n then Except.ok (rows.map (fun r => cellAt r j.toNat))
  else Except.error LoadError.indexError

/-- Model of `df[name]` label selection: the column under the first header
equal to `name` (headers are assumed distinct, as `pandas` mangles
duplicate headers on read). -/
def namedColumn (header : List Str) (rows : List (List Str)) (name : Str) :
    List Str :=
  match header.findIdx? (fun c => c = name) with
  | some k => rows.map (fun r => cellAt r k)
  | none => []

/-- The column-selection step of `load_tickers_from_table`: `int(col_hint)`
is tried first (its `ValueError` falls back to name lookup), then exact
header-name lookup, failing with the `ColumnNotFound` `ValueError` that
reports the available headers; with no hint, the first header appearing in
`COMMON_COLS` is used, else the first column. -/
def selectSeries (header : List Str) (rows : List (List Str))
    (col_hint : Option Str) : Except LoadError (List Str) :=
  match col_hint with
  | some h =>
    match pyInt h with
    | some i => ilocColumn header rows i
    | none =>
      if header.contains h then Except.ok (namedColumn header rows h)
      else Except.error (LoadError.columnNotFound header)
  | none =>
    match header.find? (fun c => COMMON_COLS.contains c) with
    | some cname => Except.ok (namedColumn header rows cname)
    | none => ilocColumn header rows 0

/-- The cell-to-symbol comprehension of `load_tickers_from_table`:
keep cells that are non-blank after stripping, normalized. -/
def seriesToSyms (series : List Str) : List Str :=
  (series.filter (fun x => pstrip x ≠ [])).map _normalize_symbol

/-- Source `load_tickers_from_table` on the parsed frame (header row and
data rows).  `df.empty` (no data rows) short-circuits to an empty result
BEFORE any column-hint handling. -/
def load_tickers_from_table (header : List Str) (rows : List (List Str))
    (col_hint : Option Str) : Except LoadError (List Str) :=
  if rows.isEmpty then Except.ok []
  else (selectSeries header rows col_hint).map (fun series => _dedupe (seriesToSyms series))

/-- Model of `pandas.read_csv(path, sep=sep)` for this program's use:
lines of the file (blank lines skipped, as by `skip_blank_lines`), the
first line the header, each line split on `sep`; an input with no lines at
all raises `EmptyDataError`.  Quoting, type inference and the float
rendering of numeric cells are not modelled: cells are taken verbatim
(short rows are `NaN`-padded at access time via `cellAt`). -/
def readCsv (content : Str) (sep : Char) :
    Except LoadError (List Str × List (List Str)) :=
  match (splitlines content).filter (fun l => l ≠ []) with
  | [] => Except.error LoadError.emptyDataError
  | h :: rest => Except.ok (splitOnChar sep h, rest.map (splitOnChar sep))

/-- Source `load_tickers_from_table` as a function of the file content. -/
def loadTableContent (content : Str) (sep : Char) (col_hint : Option Str) :
    Except LoadError (List Str) :=
  match readCsv content sep with
  | Except.ok (header, rows) => load_tickers_from_table header rows col_hint
  | Except.error e => Except.error e

/-- Source `load_tickers_generic`, as a function of the already lowercased,
dot-stripped file suffix and the file content: dispatch to the CSV, TSV,
JSON or JSONL loader, defaulting to plain text (whose result is always
`ok`: the text loader raises nothing). -/
def load_tickers_generic (suffix : Str) (content : Str) (col_hint : Option Str) :
    Except LoadError (List Str) :=
  if suffix = 'c' :: 's' :: 'v' :: [] then loadTableContent content ',' col_hint
  else if suffix = 't' :: 's' :: 'v' :: [] then loadTableContent content '\t' col_hint
  else if suffix = 'j' :: 's' :: 'o' :: 'n' :: [] then loadJsonContent content
  else if suffix = 'j' :: 's' :: 'o' :: 'n' :: 'l' :: [] then loadJsonlContent content
  else Except.ok (load_tickers_from_text content)

/-- A `pandas.DataFrame` as far as `fetch_history` observes it: column
labels and rows. -/
structure PyDataFrame where
  columns : List Str
  rows : List (List Str)
deriving DecidableEq

/-- `df.empty`: a frame with no rows (or no columns) is empty. -/
def dfEmpty (df : PyDataFrame) : Bool :=
  df.rows.isEmpty || df.columns.isEmpty

/-- Python `str.title()` on the ASCII model: a letter is uppercased after a
non-letter and lowercased after a letter. `prevAlpha` tells whether the
previous character was a letter. -/
def pyTitleAux (prevAlpha : Bool) : Str → Str
  | [] => []
  | c :: cs =>
    (if isAsciiAlphaCh c then (if prevAlpha then lowerChar c else upperChar c) else c)
      :: pyTitleAux (isAsciiAlphaCh c) cs

/-- Python `str.title()`. -/
def pyTitle (s : Str) : Str :=
  pyTitleAux false s

/-- The column renaming of `fetch_history`:
`c.title().replace(" ", "")`. -/
def retitleColumn (c : Str) : Str :=
  (pyTitle c).filter (fun ch => ch ≠ ' ')

/-- The value returned by one successful attempt of `fetch_history`: the
frame, with columns renamed when it is non-empty. -/
def fetchReturn (df : PyDataFrame) : PyDataFrame :=
  if dfEmpty df then df else { df with columns := df.columns.map retitleColumn }

/-- The observable outcome of `fetch_history`: a returned frame, the
provider error re-raised after the retries, or the failure of the
`assert last_err is not None` statement. -/
inductive FetchOutcome (E : Type) where
  | frame (df : PyDataFrame)
  | raised (e : E)
  | assertionError
deriving DecidableEq

/-- The `for attempt in range(1, retries + 1)` loop of `fetch_history`:
`last` is `last_err`.  After the loop, `assert last_err is not None`
fails when no attempt ever ran; otherwise the last error is re-raised.
(`time.sleep` has no observable effect in this model.) -/
def fetchLoop {E : Type} (attempt : Nat → Except E PyDataFrame) :
    List Nat → Option E → FetchOutcome E
  | [], none => FetchOutcome.assertionError
  | [], some e => FetchOutcome.raised e
  | a :: rest, last =>
    match attempt a with
    | Except.ok df => FetchOutcome.frame (fetchReturn df)
    | Except.error e =>
      let _ := last
      fetchLoop attempt rest (some e)

/-- Source `fetch_history`, abstracted over the provider call: `attempt n`
is the outcome of `yf.Ticker(...).history(...)` on attempt number `n`
(`retries` comes from `--retries`, an arbitrary Python `int`). -/
def fetch_history {E : Type} (attempt : Nat → Except E PyDataFrame)
    (retries : Int) : FetchOutcome E :=
  fetchLoop attempt (List.range' 1 retries.toNat) none

/-- Decidable equality of loader results, so concrete runs can be checked
by evaluation. -/
instance exceptDecEq {ε α : Type} [DecidableEq ε] [DecidableEq α] :
    DecidableEq (Except ε α)
  | Except.ok x, Except.ok y =>
    if h : x = y then isTrue (by rw [h])
    else isFalse (by intro hc; injection hc with h2; exact h h2)
  | Except.ok x, Except.error f => isFalse (fun hc => Except.noConfusion hc)
  | Except.error e, Except.ok y => isFalse (fun hc => Except.noConfusion hc)
  | Except.error e, Except.error f =>
    if h : e = f then isTrue (by rw [h])
    else isFalse (by intro hc; injection hc with h2; exact h h2)

/-! ### Character-level lemmas -/

/-- Code point of `upperChar c`: lower-case letters move down 32, all other
characters are untouched. -/
theorem upperChar_toNat (c : Char) :
    (upperChar c).toNat =
      if 97 ≤ c.toNat ∧ c.toNat ≤ 122 then c.toNat - 32 else c.toNat := by
  unfold upperChar isAsciiLowerCh
  by_cases h : 97 ≤ c.toNat ∧ c.toNat ≤ 122
  · rw [if_pos h, if_pos (by simpa using h)]
    rw [Char.ofNat, dif_pos (Or.inl (by omega))]
    simp [Char.ofNatAux, Char.toNat, UInt32.toNat, BitVec.toNat_ofNatLt]
  · rw [if_neg h, if_neg (by simpa using h)]

/-- `upperChar` does not change whether a character is whitespace. -/
theorem isSpaceCh_upperChar (c : Char) : isSpaceCh (upperChar c) = isSpaceCh c := by
  have h := upperChar_toNat c
  rw [Bool.eq_iff_iff]
  simp only [isSpaceCh, Bool.or_eq_true, decide_eq_true_eq, h]
  split <;> omega

/-- `upperChar` preserves the leading-character class of `_TICKER_RE`. -/
theorem isTickerStart_upperChar (c : Char) (h : isTickerStart c = true) :
    isTickerStart (upperChar c) = true := by
  have hn := upperChar_toNat c
  simp only [isTickerStart, isAsciiAlphaCh, isAsciiUpperCh, isAsciiLowerCh,
    Bool.or_eq_true, Bool.and_eq_true, decide_eq_true_eq, hn] at h ⊢
  split <;> omega

/-- `upperChar` preserves the tail-character class of `_TICKER_RE`. -/
theorem isTickerChar_upperChar (c : Char) (h : isTickerChar c = true) :
    isTickerChar (upperChar c) = true := by
  have hn := upperChar_toNat c
  simp only [isTickerChar, isAsciiAlphaCh, isAsciiUpperCh, isAsciiLowerCh, isDigitCh,
    Bool.or_eq_true, Bool.and_eq_true, decide_eq_true_eq, hn] at h ⊢
  split <;> omega

/-- No character of the leading `_TICKER_RE` class is whitespace. -/
theorem not_isSpaceCh_of_isTickerStart (c : Char) (h : isTickerStart c = true) :
    isSpaceCh c = false := by
  simp only [isTickerStart, isAsciiAlphaCh, isAsciiUpperCh, isAsciiLowerCh,
    Bool.or_eq_true, Bool.and_eq_true, decide_eq_true_eq] at h
  simp only [isSpaceCh, Bool.or_eq_false_iff, decide_eq_false_iff_not]
  omega

/-- No character of the tail `_TICKER_RE` class is whitespace. -/
theorem not_isSpaceCh_of_isTickerChar (c : Char) (h : isTickerChar c = true) :
    isSpaceCh c = false := by
  simp only [isTickerChar, isAsciiAlphaCh, isAsciiUpperCh, isAsciiLowerCh, isDigitCh,
    Bool.or_eq_true, Bool.and_eq_true, decide_eq_true_eq] at h
  simp only [isSpaceCh, Bool.or_eq_false_iff, decide_eq_false_iff_not]
  omega

/-- A character that is not an ASCII lower-case letter is fixed by
`upperChar`. -/
theorem upperChar_eq_self {c : Char} (h : isAsciiLowerCh c = false) :
    upperChar c = c := by
  unfold upperChar
  rw [h]
  rfl

/-- The image of `upperChar` contains no ASCII lower-case letter. -/
theorem isAsciiLowerCh_upperChar (c : Char) :
    isAsciiLowerCh (upperChar c) = false := by
  have hn := upperChar_toNat c
  rw [Bool.eq_false_iff]
  simp only [ne_eq, isAsciiLowerCh, Bool.and_eq_true, decide_eq_true_eq, not_and]
  intro h1 h2
  by_cases h : 97 ≤ c.toNat ∧ c.toNat ≤ 122
  · rw [if_pos h] at hn
    omega
  · rw [if_neg h] at hn
    omega

/-- `upperChar` is idempotent. -/
theorem upperChar_upperChar (c : Char) : upperChar (upperChar c) = upperChar c :=
  upperChar_eq_self (isAsciiLowerCh_upperChar c)

/-! ### String-level lemmas: `pstrip` and `_normalize_symbol` -/

/-- `dropWhile` is idempotent. -/
theorem dropWhile_dropWhile_same {α : Type} (p : α → Bool) (l : List α) :
    (l.dropWhile p).dropWhile p = l.dropWhile p := by
  induction l with
  | nil => rfl
  | cons c cs ih =>
    by_cases h : p c
    · simpa [List.dropWhile_cons, h] using ih
    · simp [List.dropWhile_cons, h]

/-- The head surviving a `dropWhile` fails the predicate. -/
theorem head?_dropWhile {α : Type} (p : α → Bool) (l : List α) (a : α)
    (h : (l.dropWhile p).head? = some a) : p a = false := by
  induction l with
  | nil => simp at h
  | cons c cs ih =>
    by_cases hc : p c
    · rw [List.dropWhile_cons, if_pos hc] at h
      exact ih h
    · rw [List.dropWhile_cons, if_neg hc] at h
      simp at h
      subst h
      exact Bool.not_eq_true _ ▸ (by simpa using hc)

/-- A list whose head fails the predicate is fixed by `dropWhile`. -/
theorem dropWhile_eq_self_of_head {α : Type} (p : α → Bool) (l : List α)
    (h : ∀ a, l.head? = some a → p a = false) : l.dropWhile p = l := by
  cases l with
  | nil => rfl
  | cons c cs =>
    rw [List.dropWhile_cons, if_neg]
    simp [h c rfl]

/-- A non-empty suffix has the same last element. -/
theorem getLast?_of_suffix {α : Type} {l₁ l₂ : List α} (h : l₁ <:+ l₂)
    (hne : l₁ ≠ []) : l₁.getLast? = l₂.getLast? := by
  obtain ⟨t, rfl⟩ := h
  rw [List.getLast?_append]
  cases hl : l₁.getLast? with
  | none => exact absurd (List.getLast?_eq_none_iff.mp hl) hne
  | some a => rfl

/-- If every element fails the predicate, `dropWhile` is the identity. -/
theorem dropWhile_eq_self_of_all {α : Type} (p : α → Bool) (l : List α)
    (h : ∀ a ∈ l, p a = false) : l.dropWhile p = l := by
  apply dropWhile_eq_self_of_head
  intro a ha
  exact h a (List.mem_of_mem_head? ha)

/-- A whitespace-free string is fixed by `pstrip`. -/
theorem pstrip_eq_self_of_all {s : Str} (h : ∀ c ∈ s, isSpaceCh c = false) :
    pstrip s = s := by
  unfold pstrip lstripWs
  rw [dropWhile_eq_self_of_all _ _ h,
    dropWhile_eq_self_of_all _ _ (fun a ha => h a (List.mem_reverse.mp ha)),
    List.reverse_reverse]

/-- `pstrip` is idempotent. -/
theorem pstrip_pstrip (s : Str) : pstrip (pstrip s) = pstrip s := by
  unfold pstrip lstripWs
  set A := s.dropWhile isSpaceCh with hA
  set B := A.reverse.dropWhile isSpaceCh with hB
  have hBfix : B.dropWhile isSpaceCh = B := by
    rw [hB, dropWhile_dropWhile_same]
  have hstep1 : B.reverse.dropWhile isSpaceCh = B.reverse := by
    apply dropWhile_eq_self_of_head
    intro a ha
    rw [List.head?_reverse] at ha
    have hBne : B ≠ [] := by
      intro hcon
      rw [hcon] at ha
      simp at ha
    have hsuf : B <:+ A.reverse := hB ▸ List.dropWhile_suffix _
    rw [getLast?_of_suffix hsuf hBne, List.getLast?_reverse] at ha
    exact head?_dropWhile _ _ _ (hA ▸ ha)
  rw [hstep1, List.reverse_reverse, hBfix]

/-- `pstrip` commutes with character-wise upper-casing. -/
theorem pstrip_map_upperChar (s : Str) :
    pstrip (s.map upperChar) = (pstrip s).map upperChar := by
  have hfun : (isSpaceCh ∘ upperChar) = isSpaceCh := funext isSpaceCh_upperChar
  unfold pstrip lstripWs
  rw [List.dropWhile_map, hfun, ← List.map_reverse, List.dropWhile_map, hfun,
    ← List.map_reverse]

/-- `_normalize_symbol` is idempotent: loader outputs are stripped and
upper-cased fixed points. -/
theorem normalize_normalize (s : Str) :
    _normalize_symbol (_normalize_symbol s) = _normalize_symbol s := by
  unfold _normalize_symbol
  rw [pstrip_map_upperChar, pstrip_pstrip, ← List.comp_map]
  congr 1
  exact funext upperChar_upperChar

/-- A full `_TICKER_RE` match is non-empty. -/
theorem tickerFullmatch_ne_nil {p : Str} (h : tickerFullmatch p = true) :
    p ≠ [] := by
  cases p with
  | nil => simp [tickerFullmatch] at h
  | cons c cs => simp

/-- No character of a full `_TICKER_RE` match is whitespace. -/
theorem tickerFullmatch_no_space {p : Str} (h : tickerFullmatch p = true) :
    ∀ c ∈ p, isSpaceCh c = false := by
  cases p with
  | nil => simp
  | cons c cs =>
    simp only [tickerFullmatch, Bool.and_eq_true, List.all_eq_true] at h
    intro a ha
    rcases List.mem_cons.mp ha with rfl | ha
    · exact not_isSpaceCh_of_isTickerStart a h.1
    · exact not_isSpaceCh_of_isTickerChar a (h.2 a ha)

/-- Normalizing a full `_TICKER_RE` match yields a full match again. -/
theorem tickerFullmatch_normalize {p : Str} (h : tickerFullmatch p = true) :
    tickerFullmatch (_normalize_symbol p) = true := by
  unfold _normalize_symbol
  rw [pstrip_eq_self_of_all (tickerFullmatch_no_space h)]
  cases p with
  | nil => simp [tickerFullmatch] at h
  | cons c cs =>
    rw [List.map_cons]
    simp only [tickerFullmatch, Bool.and_eq_true, List.all_eq_true] at h ⊢
    constructor
    · exact isTickerStart_upperChar c h.1
    · intro x hx
      rw [List.mem_map] at hx
      obtain ⟨a, ha, rfl⟩ := hx
      exact isTickerChar_upperChar a (h.2 a ha)

/-! ### Deduplication lemmas -/

/-- The `_dedupe` loop with accumulated `seen` set computes `specFirstSeen`
of the input with the already-seen entries removed. -/
theorem dedupeAux_eq_specFirstSeen (l : List Str) :
    ∀ seen : List Str,
      dedupeAux seen l = specFirstSeen (l.filter (fun x => decide (x ∉ seen))) := by
  induction l with
  | nil =>
    intro seen
    simp [dedupeAux, specFirstSeen]
  | cons x xs ih =>
    intro seen
    by_cases hseen : x ∈ seen
    · rw [dedupeAux, if_neg (by simp [hseen]), List.filter_cons_of_neg (by simp [hseen])]
      exact ih seen
    · rw [List.filter_cons_of_pos (by simp [hseen])]
      by_cases hnil : x = []
      · subst hnil
        rw [dedupeAux, if_neg (by simp), specFirstSeen, if_pos rfl]
        exact ih seen
      · rw [dedupeAux, if_pos ⟨hnil, hseen⟩, specFirstSeen, if_neg hnil,
          List.filter_filter, ih (x :: seen)]
        congr 2
        apply List.filter_congr
        intro y _
        simp only [List.mem_cons, not_or, ne_eq, Bool.decide_and, Bool.and_comm]

/-- Source `_dedupe` is exactly the spec's first-seen deduplication. -/
theorem _dedupe_eq_specFirstSeen (l : List Str) : _dedupe l = specFirstSeen l := by
  unfold _dedupe
  rw [dedupeAux_eq_specFirstSeen]
  congr 1
  apply List.filter_eq_self.mpr
  intro a _
  simp

/-- Members of `specFirstSeen l` are non-empty members of `l`. -/
theorem mem_specFirstSeen {l : List Str} {y : Str} (hy : y ∈ specFirstSeen l) :
    y ∈ l ∧ y ≠ [] := by
  induction l using specFirstSeen.induct with
  | case1 => simp [specFirstSeen] at hy
  | case2 xs ih =>
    rw [specFirstSeen, if_pos rfl] at hy
    have := ih hy
    exact ⟨List.mem_cons_of_mem _ this.1, this.2⟩
  | case3 x xs h ih =>
    rw [specFirstSeen, if_neg h] at hy
    rcases List.mem_cons.mp hy with rfl | hy
    · exact ⟨List.mem_cons_self _ _, h⟩
    · have := ih hy
      exact ⟨List.mem_cons_of_mem _ (List.mem_filter.mp this.1).1, this.2⟩

/-- `specFirstSeen` has no duplicates. -/
theorem specFirstSeen_nodup (l : List Str) : (specFirstSeen l).Nodup := by
  induction l using specFirstSeen.induct with
  | case1 => simp [specFirstSeen]
  | case2 xs ih => rw [specFirstSeen, if_pos rfl]; exact ih
  | case3 x xs h ih =>
    rw [specFirstSeen, if_neg h]
    refine List.nodup_cons.mpr ⟨?_, ih⟩
    intro hmem
    have := (mem_specFirstSeen hmem).1
    have := (List.mem_filter.mp this).2
    simp at this

/-- `specFirstSeen l` is a sublist of `l`: retained symbols appear in scan
order, each at its first occurrence. -/
theorem specFirstSeen_sublist (l : List Str) : (specFirstSeen l).Sublist l := by
  induction l using specFirstSeen.induct with
  | case1 => simp [specFirstSeen]
  | case2 xs ih =>
    rw [specFirstSeen, if_pos rfl]
    exact ih.trans (List.sublist_cons_self _ _)
  | case3 x xs h ih =>
    rw [specFirstSeen, if_neg h]
    exact List.Sublist.cons₂ x (ih.trans (List.filter_sublist xs))

/-- Every non-empty member of `l` is retained by `specFirstSeen`. -/
theorem mem_specFirstSeen_of_mem {l : List Str} {y : Str} (hy : y ∈ l)
    (hne : y ≠ []) : y ∈ specFirstSeen l := by
  induction l using specFirstSeen.induct with
  | case1 => simp at hy
  | case2 xs ih =>
    rw [specFirstSeen, if_pos rfl]
    rcases List.mem_cons.mp hy with rfl | hy
    · exact absurd rfl hne
    · exact ih hy
  | case3 x xs h ih =>
    rw [specFirstSeen, if_neg h]
    by_cases hxy : y = x
    · subst hxy; exact List.mem_cons_self _ _
    · rcases List.mem_cons.mp hy with rfl | hy
      · exact absurd rfl hxy
      · exact List.mem_cons_of_mem _ (ih (List.mem_filter.mpr ⟨hy, by simp [hxy]⟩))

/-- A duplicate-free list of normalization fixed points is duplicate-free
under post-normalization equality. -/
theorem pairwise_normalize_of_nodup {l : List Str}
    (hfix : ∀ x ∈ l, _normalize_symbol x = x) (hnd : l.Nodup) :
    l.Pairwise (fun a b => _normalize_symbol a ≠ _normalize_symbol b) := by
  refine List.Pairwise.imp_of_mem ?_ hnd
  intro a b ha hb hab
  rw [hfix a ha, hfix b hb]
  exact hab

/-! ### Shape of the symbols each loader collects -/

/-- Every symbol emitted for one text line is the normalization of a string
that fully matches `_TICKER_RE`. -/
theorem mem_lineSymbols {line : Str} {x : Str} (hx : x ∈ lineSymbols line) :
    ∃ p, tickerFullmatch p = true ∧ x = _normalize_symbol p := by
  unfold lineSymbols at hx
  split at hx
  · rw [List.mem_map] at hx
    obtain ⟨p, hp, rfl⟩ := hx
    exact ⟨p, (List.mem_filter.mp hp).2, rfl⟩
  · split at hx
    · rename_i tok htok
      rcases List.mem_cons.mp hx with rfl | hmem
      · exact ⟨tok, List.find?_some htok, rfl⟩
      · simp at hmem
    · simp at hx

/-- Every symbol of the text scan is the normalization of a full
`_TICKER_RE` match. -/
theorem mem_textScan {content : Str} {x : Str} (hx : x ∈ textScan content) :
    ∃ p, tickerFullmatch p = true ∧ x = _normalize_symbol p := by
  unfold textScan at hx
  obtain ⟨raw, _, hline⟩ := List.mem_flatMap.mp hx
  unfold processLine at hline
  split at hline
  · simp at hline
  · exact mem_lineSymbols hline

/-- Every symbol produced by `_extract_from_dicts` is the normalization of
some string value. -/
theorem mem_extract_from_dicts {objs : List (List (Str × JVal))} {x : Str}
    (hx : x ∈ _extract_from_dicts objs) :
    ∃ s, x = _normalize_symbol s := by
  unfold _extract_from_dicts at hx
  obtain ⟨o, _, ho⟩ := List.mem_flatMap.mp hx
  cases hext : extractFromDict o with
  | none => rw [hext] at ho; simp at ho
  | some v =>
    rw [hext] at ho
    simp only [Option.toList_some, List.mem_singleton] at ho
    subst ho
    unfold extractFromDict at hext
    obtain ⟨k, _, hk⟩ := List.exists_of_findSome?_eq_some hext
    cases hdg : dictGet o k with
    | none =>
      rw [hdg] at hk
      simp at hk
    | some jv =>
      rw [hdg] at hk
      cases jv with
      | str s =>
        change (if pstrip s = [] then none else some (_normalize_symbol s)) = some x at hk
        by_cases hps : pstrip s = []
        · rw [if_pos hps] at hk
          exact absurd hk (by simp)
        · rw [if_neg hps] at hk
          exact ⟨s, by injection hk with h; rw [h]⟩
      | num raw => simp at hk
      | boolean b => simp at hk
      | null => simp at hk
      | arr elems => simp at hk
      | obj fields => simp at hk

/-- Every symbol of the jsonl scan is the normalization of some string. -/
theorem mem_jsonlScan {vals : List JVal} {x : Str} (hx : x ∈ jsonlScan vals) :
    ∃ s, x = _normalize_symbol s := by
  unfold jsonlScan at hx
  obtain ⟨v, _, hv⟩ := List.mem_flatMap.mp hx
  cases v with
  | str s =>
    simp only [jsonlVal, List.mem_singleton] at hv
    exact ⟨s, hv⟩
  | obj o =>
    have : x ∈ _extract_from_dicts [o] := by
      unfold _extract_from_dicts
      simpa [jsonlVal] using hv
    exact mem_extract_from_dicts this
  | num raw => simp [jsonlVal] at hv
  | boolean b => simp [jsonlVal] at hv
  | null => simp [jsonlVal] at hv
  | arr elems => simp [jsonlVal] at hv

/-- Every member of a `_dedupe` of normalization images is a non-empty
fixed point of `_normalize_symbol`. -/
theorem mem_dedupe_normalized {pre : List Str}
    (hpre : ∀ x ∈ pre, ∃ s, x = _normalize_symbol s) :
    ∀ y ∈ _dedupe pre, y ≠ [] ∧ _normalize_symbol y = y := by
  intro y hy
  rw [_dedupe_eq_specFirstSeen] at hy
  obtain ⟨hmem, hne⟩ := mem_specFirstSeen hy
  obtain ⟨s, rfl⟩ := hpre _ hmem
  exact ⟨hne, normalize_normalize s⟩

/-- A `_dedupe` of normalization images has no duplicates even under
post-normalization equality. -/
theorem dedupe_pairwise_normalize {pre : List Str}
    (hpre : ∀ x ∈ pre, ∃ s, x = _normalize_symbol s) :
    (_dedupe pre).Pairwise (fun a b => _normalize_symbol a ≠ _normalize_symbol b) := by
  apply pairwise_normalize_of_nodup
  · intro x hx
    exact (mem_dedupe_normalized hpre x hx).2
  · rw [_dedupe_eq_specFirstSeen]
    exact specFirstSeen_nodup _

/-- Shape of a successful `load_tickers_from_json`: a `_dedupe` of
normalization images. -/
theorem load_tickers_from_json_ok_shape {j : JVal} {out : List Str}
    (h : load_tickers_from_json j = Except.ok out) :
    ∃ pre, out = _dedupe pre ∧ ∀ x ∈ pre, ∃ s, x = _normalize_symbol s := by
  cases j with
  | arr xs =>
    change (if allStrings xs then
        Except.ok (_dedupe ((xs.filterMap jStr?).map _normalize_symbol))
      else if allDicts xs then
        Except.ok (_dedupe (_extract_from_dicts (xs.filterMap jObj?)))
      else Except.error LoadError.unsupportedJsonStructure) = Except.ok out at h
    by_cases hstr : allStrings xs
    · rw [if_pos hstr] at h
      injection h with h
      refine ⟨_, h.symm, ?_⟩
      intro x hx
      obtain ⟨s, _, rfl⟩ := List.mem_map.mp hx
      exact ⟨s, rfl⟩
    · rw [if_neg hstr] at h
      by_cases hdict : allDicts xs
      · rw [if_pos hdict] at h
        injection h with h
        exact ⟨_, h.symm, fun x hx => mem_extract_from_dicts hx⟩
      · rw [if_neg hdict] at h
        exact absurd h (by simp)
  | str s => exact absurd h (by simp [load_tickers_from_json])
  | num raw => exact absurd h (by simp [load_tickers_from_json])
  | boolean b => exact absurd h (by simp [load_tickers_from_json])
  | null => exact absurd h (by simp [load_tickers_from_json])
  | obj fields => exact absurd h (by simp [load_tickers_from_json])

/-- Shape of a successful `load_tickers_from_table`: empty (the `df.empty`
short-circuit) or a `_dedupe` of normalization images. -/
theorem load_tickers_from_table_ok_shape {header : List Str}
    {rows : List (List Str)} {ch : Option Str} {out : List Str}
    (h : load_tickers_from_table header rows ch = Except.ok out) :
    out = [] ∨ ∃ pre, out = _dedupe pre ∧ ∀ x ∈ pre, ∃ s, x = _normalize_symbol s := by
  unfold load_tickers_from_table at h
  by_cases hempty : rows.isEmpty
  · rw [if_pos hempty] at h
    injection h with h
    exact Or.inl h.symm
  · rw [if_neg hempty] at h
    cases hsel : selectSeries header rows ch with
    | error e => rw [hsel] at h; simp [Except.map] at h
    | ok series =>
      rw [hsel] at h
      simp only [Except.map] at h
      injection h with h
      refine Or.inr ⟨seriesToSyms series, h.symm, ?_⟩
      intro x hx
      obtain ⟨s, _, rfl⟩ := List.mem_map.mp hx
      exact ⟨s, rfl⟩

/-- Filtering non-empty pieces before the `_TICKER_RE` filter changes
nothing: the empty string never matches `_TICKER_RE`. -/
theorem filter_fullmatch_collapse (xs : List Str) :
    ((xs.filter (fun p => p ≠ [])).filter tickerFullmatch) = xs.filter tickerFullmatch := by
  rw [List.filter_filter]
  apply List.filter_congr
  intro a _
  cases a with
  | nil => simp [tickerFullmatch]
  | cons c cs => simp

/-- `breakOn pat` finds an occurrence exactly when `pat` occurs as an
infix (for non-empty `pat`). -/
theorem breakOn_isSome_iff_infix {pat : Str} (hpat : pat ≠ []) (t : Str) :
    (breakOn pat t).isSome = true ↔ pat <:+: t := by
  induction t with
  | nil =>
    unfold breakOn
    rw [if_neg hpat]
    simp only [Option.isSome_none, Bool.false_eq_true, false_iff]
    intro hcon
    exact hpat (List.eq_nil_of_infix_nil hcon)
  | cons c cs ih =>
    unfold breakOn
    by_cases hpre : pat.isPrefixOf (c :: cs)
    · rw [if_pos hpre]
      simp only [Option.isSome_some, true_iff]
      exact (List.isPrefixOf_iff_prefix.mp hpre).isInfix
    · rw [if_neg hpre]
      rw [List.infix_cons_iff]
      cases hb : breakOn pat cs with
      | some pr =>
        simp only [Option.isSome_some, true_iff]
        exact Or.inr ((ih.mp (by rw [hb]; rfl)))
      | none =>
        simp only [Option.isSome_none, Bool.false_eq_true, false_iff]
        intro hcon
        rcases hcon with hcon | hcon
        · exact hpre (List.isPrefixOf_iff_prefix.mpr hcon)
        · have := ih.mpr hcon
          rw [hb] at this
          simp at this

/-- With a recorded error, the retry loop never reaches the assertion
failure. -/
theorem fetchLoop_some_ne_assertion {E : Type} (attempt : Nat → Except E PyDataFrame) :
    ∀ (l : List Nat) (e : E),
      fetchLoop attempt l (some e) ≠ FetchOutcome.assertionError := by
  intro l
  induction l with
  | nil => intro e; simp [fetchLoop]
  | cons a rest ih =>
    intro e
    unfold fetchLoop
    cases attempt a with
    | ok df => simp
    | error e2 => exact ih e2

/-- With at least one pending attempt, the retry loop never reaches the
assertion failure. -/
theorem fetchLoop_cons_ne_assertion {E : Type} (attempt : Nat → Except E PyDataFrame)
    (a : Nat) (rest : List Nat) (last : Option E) :
    fetchLoop attempt (a :: rest) last ≠ FetchOutcome.assertionError := by
  unfold fetchLoop
  cases attempt a with
  | ok df => simp
  | error e2 => exact fetchLoop_some_ne_assertion attempt rest e2

/-- Shape of a successful content-level table load. -/
theorem loadTableContent_ok_shape {content : Str} {sep : Char} {ch : Option Str}
    {out : List Str} (h : loadTableContent content sep ch = Except.ok out) :
    out = [] ∨ ∃ pre, out = _dedupe pre ∧ ∀ x ∈ pre, ∃ s, x = _normalize_symbol s := by
  unfold loadTableContent at h
  split at h
  · exact load_tickers_from_table_ok_shape h
  · exact absurd h (by simp)

/-- Shape of a successful content-level JSON load. -/
theorem loadJsonContent_ok_shape {content : Str} {out : List Str}
    (h : loadJsonContent content = Except.ok out) :
    ∃ pre, out = _dedupe pre ∧ ∀ x ∈ pre, ∃ s, x = _normalize_symbol s := by
  unfold loadJsonContent at h
  split at h
  · exact load_tickers_from_json_ok_shape h
  · exact absurd h (by simp)

/-- Shape of a successful content-level JSON-lines load. -/
theorem loadJsonlContent_ok_shape {content : Str} {out : List Str}
    (h : loadJsonlContent content = Except.ok out) :
    ∃ pre, out = _dedupe pre ∧ ∀ x ∈ pre, ∃ s, x = _normalize_symbol s := by
  unfold loadJsonlContent at h
  split at h
  · injection h with h
    subst h
    exact ⟨_, rfl, fun x hx => mem_jsonlScan hx⟩
  · exact absurd h (by simp)

/-- Shape of a successful `load_tickers_generic` run, whichever loader the
suffix selects. -/
theorem load_tickers_generic_ok_shape {suffix content : Str} {ch : Option Str}
    {out : List Str} (h : load_tickers_generic suffix content ch = Except.ok out) :
    out = [] ∨ ∃ pre, out = _dedupe pre ∧ ∀ x ∈ pre, ∃ s, x = _normalize_symbol s := by
  unfold load_tickers_generic at h
  split at h
  · exact loadTableContent_ok_shape h
  · split at h
    · exact loadTableContent_ok_shape h
    · split at h
      · exact Or.inr (loadJsonContent_ok_shape h)
      · split at h
        · exact Or.inr (loadJsonlContent_ok_shape h)
        · injection h with h
          subst h
          exact Or.inr ⟨_, rfl, fun x hx =>
            (mem_textScan hx).elim (fun p hp => ⟨p, hp.2⟩)⟩

/-! ### Claim theorems -/

/-- C3: parsing the five-line plain-text input
`"1. BTC-USD\n2) ETH-USD\n$3: USDT-USD\n- BNB-USD\n• SOL-USD\n"` returns
exactly `["BTC-USD", "ETH-USD", "USDT-USD", "BNB-USD", "SOL-USD"]` in that
order: the enumeration-prefix rule and bullet rule strip the prefixes
before symbol extraction. -/
theorem c3_enumeration_and_bullet_scenario :
    load_tickers_from_text ("1. BTC-USD\n2) ETH-USD\n$3: USDT-USD\n- BNB-USD\n• SOL-USD\n".toList)
      = ["BTC-USD".toList, "ETH-USD".toList, "USDT-USD".toList,
         "BNB-USD".toList, "SOL-USD".toList] := by
  decide

/-- C6: a well-formed JSON document whose top-level value is neither a list
of strings nor a list of objects makes `load_tickers_from_json` fail with
the unsupported-structure error, returning no partial list. -/
theorem c6_unsupported_json_structure (j : JVal)
    (h : ∀ xs, j = JVal.arr xs → allStrings xs = false ∧ allDicts xs = false) :
    load_tickers_from_json j = Except.error LoadError.unsupportedJsonStructure := by
  cases j with
  | arr xs =>
    obtain ⟨h1, h2⟩ := h xs rfl
    change (if allStrings xs then
        Except.ok (_dedupe ((xs.filterMap jStr?).map _normalize_symbol))
      else if allDicts xs then
        Except.ok (_dedupe (_extract_from_dicts (xs.filterMap jObj?)))
      else Except.error LoadError.unsupportedJsonStructure)
      = Except.error LoadError.unsupportedJsonStructure
    rw [h1, h2]
    rfl
  | str s => rfl
  | num raw => rfl
  | boolean b => rfl
  | null => rfl
  | obj fields => rfl

/-- Witness for C6: the JSON object with the single field `foo: "bar"`
(Scenario F) fails with `UnsupportedJsonStructure`. -/
theorem c6_unsupported_json_structure_witness :
    load_tickers_from_json (JVal.obj [("foo".toList, JVal.str ("bar".toList))])
      = Except.error LoadError.unsupportedJsonStructure :=
  c6_unsupported_json_structure _ (fun _ hcon => JVal.noConfusion hcon)

/-- C7: a JSON document holding a list of objects and a JSON-lines file
holding the same objects one per line yield the same symbol list: both
apply the same ordered key scan per object, the same normalization and the
same deduplication. -/
theorem c7_json_jsonl_round_trip (objs : List (List (Str × JVal))) :
    load_tickers_from_json (JVal.arr (objs.map JVal.obj))
      = Except.ok (load_tickers_from_jsonl (objs.map JVal.obj)) := by
  cases objs with
  | nil => rfl
  | cons o os =>
    have hstr : allStrings ((o :: os).map JVal.obj) = false := by
      simp [allStrings, jStr?]
    have hdict : allDicts ((o :: os).map JVal.obj) = true := by
      rw [allDicts, List.all_eq_true]
      intro x hx
      obtain ⟨a, _, rfl⟩ := List.mem_map.mp hx
      rfl
    change (if allStrings ((o :: os).map JVal.obj) then
        Except.ok (_dedupe (((((o :: os).map JVal.obj)).filterMap jStr?).map _normalize_symbol))
      else if allDicts ((o :: os).map JVal.obj) then
        Except.ok (_dedupe (_extract_from_dicts (((o :: os).map JVal.obj).filterMap jObj?)))
      else Except.error LoadError.unsupportedJsonStructure) = _
    rw [hstr, hdict]
    simp only [Bool.false_eq_true, if_false, if_true]
    have hproj : ((o :: os).map JVal.obj).filterMap jObj? = o :: os := by
      rw [List.filterMap_map]
      exact List.filterMap_some _
    rw [hproj]
    unfold load_tickers_from_jsonl jsonlScan
    rw [List.flatMap_map]
    rfl

/-- C10: with `retries ≤ 0` the attempt loop of `fetch_history` never runs,
so no fetch occurs, no error is recorded, and the function hits its
`assert last_err is not None` failure instead of returning a frame or
re-raising a provider error; with `retries ≥ 1` the assertion can never be
reached, whatever the provider does. -/
theorem c10_fetch_history_retries_guard {E : Type}
    (attempt : Nat → Except E PyDataFrame) (retries : Int) :
    (retries ≤ 0 → fetch_history attempt retries = FetchOutcome.assertionError) ∧
    (1 ≤ retries → fetch_history attempt retries ≠ FetchOutcome.assertionError) := by
  constructor
  · intro h
    unfold fetch_history
    have hz : retries.toNat = 0 := by omega
    rw [hz]
    rfl
  · intro h
    unfold fetch_history
    have h1 : 1 ≤ retries.toNat := by omega
    cases hn : retries.toNat with
    | zero => omega
    | succ n =>
      rw [List.range'_succ]
      exact fetchLoop_cons_ne_assertion attempt 1 _ none

/-- Witness for C10: with a provider that always fails, zero retries end in
the assertion failure and one retry does not. -/
theorem c10_fetch_history_retries_guard_witness :
    fetch_history (E := Unit) (fun _ => Except.error ()) 0 = FetchOutcome.assertionError ∧
    fetch_history (E := Unit) (fun _ => Except.error ()) 1 ≠ FetchOutcome.assertionError :=
  ⟨(c10_fetch_history_retries_guard (fun _ => Except.error ()) 0).1 (by decide),
   (c10_fetch_history_retries_guard (fun _ => Except.error ()) 1).2 (by decide)⟩

/-- C1: every loader output is the first-seen deduplication of its scan
list: no duplicates (even under post-normalization equality, since every
retained symbol is a normalization fixed point), and each retained symbol
sits at the position of its first occurrence in scan order (the output is
the canonical `specFirstSeen` sublist of the scan list). -/
theorem c1_dedupe_first_seen_invariant :
    (∀ l, _dedupe l = specFirstSeen l) ∧
    (∀ l, (specFirstSeen l).Nodup ∧ (specFirstSeen l).Sublist l ∧
      (∀ y ∈ specFirstSeen l, y ∈ l ∧ y ≠ []) ∧
      (∀ y ∈ l, y ≠ [] → y ∈ specFirstSeen l)) ∧
    (∀ content, load_tickers_from_text content = specFirstSeen (textScan content)) ∧
    (∀ vals, load_tickers_from_jsonl vals = specFirstSeen (jsonlScan vals)) ∧
    (∀ content, (load_tickers_from_text content).Pairwise
      (fun a b => _normalize_symbol a ≠ _normalize_symbol b)) ∧
    (∀ vals, (load_tickers_from_jsonl vals).Pairwise
      (fun a b => _normalize_symbol a ≠ _normalize_symbol b)) ∧
    (∀ j out, load_tickers_from_json j = Except.ok out →
      (∃ pre, out = specFirstSeen pre) ∧
      out.Pairwise (fun a b => _normalize_symbol a ≠ _normalize_symbol b)) ∧
    (∀ header rows ch out, load_tickers_from_table header rows ch = Except.ok out →
      (∃ pre, out = specFirstSeen pre) ∧
      out.Pairwise (fun a b => _normalize_symbol a ≠ _normalize_symbol b)) ∧
    (∀ suffix content ch out, load_tickers_generic suffix content ch = Except.ok out →
      (∃ pre, out = specFirstSeen pre) ∧
      out.Pairwise (fun a b => _normalize_symbol a ≠ _normalize_symbol b)) := by
  refine ⟨_dedupe_eq_specFirstSeen,
    fun l => ⟨specFirstSeen_nodup l, specFirstSeen_sublist l,
      fun y hy => mem_specFirstSeen hy, fun y hy hne => mem_specFirstSeen_of_mem hy hne⟩,
    fun content => _dedupe_eq_specFirstSeen _,
    fun vals => _dedupe_eq_specFirstSeen _, ?_, ?_, ?_, ?_, ?_⟩
  · intro content
    exact dedupe_pairwise_normalize (fun x hx =>
      (mem_textScan hx).elim (fun p hp => ⟨p, hp.2⟩))
  · intro vals
    exact dedupe_pairwise_normalize (fun x hx => mem_jsonlScan hx)
  · intro j out h
    obtain ⟨pre, rfl, hpre⟩ := load_tickers_from_json_ok_shape h
    exact ⟨⟨pre, _dedupe_eq_specFirstSeen pre⟩, dedupe_pairwise_normalize hpre⟩
  · intro header rows ch out h
    rcases load_tickers_from_table_ok_shape h with rfl | ⟨pre, rfl, hpre⟩
    · exact ⟨⟨[], by simp [specFirstSeen]⟩, List.Pairwise.nil⟩
    · exact ⟨⟨pre, _dedupe_eq_specFirstSeen pre⟩, dedupe_pairwise_normalize hpre⟩
  · intro suffix content ch out h
    rcases load_tickers_generic_ok_shape h with rfl | ⟨pre, rfl, hpre⟩
    · exact ⟨⟨[], by simp [specFirstSeen]⟩, List.Pairwise.nil⟩
    · exact ⟨⟨pre, _dedupe_eq_specFirstSeen pre⟩, dedupe_pairwise_normalize hpre⟩

/-- Witness for C1: the table loader on Scenario C's frame gives a
duplicate-free first-seen list. -/
theorem c1_dedupe_first_seen_invariant_witness :
    (∃ pre, ["BTC-USD".toList, "ETH-USD".toList] = specFirstSeen pre) ∧
    (["BTC-USD".toList, "ETH-USD".toList] : List Str).Pairwise
      (fun a b => _normalize_symbol a ≠ _normalize_symbol b) :=
  c1_dedupe_first_seen_invariant.2.2.2.2.2.2.2.1
    ["Symbol".toList, "Name".toList]
    [["BTC-USD".toList, "Bitcoin".toList], ["ETH-USD".toList, "Ethereum".toList]]
    none ["BTC-USD".toList, "ETH-USD".toList] (by rfl)

/-- C2 counterexample: the JSON loader applies no `_TICKER_RE` check, so
the list-of-strings document `["foo bar!"]` loads successfully and yields
the symbol `"FOO BAR!"`, which does not match the ticker pattern (it is
uppercased and trimmed, but not pattern-checked). -/
theorem c2_counterexample_json_no_pattern_check :
    load_tickers_from_json (JVal.arr [JVal.str ("foo bar!".toList)])
      = Except.ok ["FOO BAR!".toList] ∧
    tickerFullmatch ("FOO BAR!".toList) = false := by
  constructor
  · rfl
  · decide

/-- C2 (amended): every element returned by the plain-text loader is a
normalized ticker — uppercased, non-empty, fully matching `_TICKER_RE` —
while the table, JSON and JSON-lines loaders guarantee only uppercased,
trimmed, non-empty elements (they apply no pattern check). -/
theorem c2_amended_output_normalization :
    (∀ content x, x ∈ load_tickers_from_text content →
      tickerFullmatch x = true ∧ x ≠ [] ∧ _normalize_symbol x = x) ∧
    (∀ j out x, load_tickers_from_json j = Except.ok out → x ∈ out →
      x ≠ [] ∧ _normalize_symbol x = x) ∧
    (∀ vals x, x ∈ load_tickers_from_jsonl vals →
      x ≠ [] ∧ _normalize_symbol x = x) ∧
    (∀ header rows ch out x, load_tickers_from_table header rows ch = Except.ok out →
      x ∈ out → x ≠ [] ∧ _normalize_symbol x = x) := by
  refine ⟨?_, ?_, ?_, ?_⟩
  · intro content x hx
    have hshape := mem_dedupe_normalized (fun y hy =>
      (mem_textScan hy).elim (fun p hp => ⟨p, hp.2⟩)) x hx
    refine ⟨?_, hshape.1, hshape.2⟩
    have hx' : x ∈ textScan content := by
      have := hx
      rw [load_tickers_from_text, _dedupe_eq_specFirstSeen] at this
      exact (mem_specFirstSeen this).1
    obtain ⟨p, hp, rfl⟩ := mem_textScan hx'
    exact tickerFullmatch_normalize hp
  · intro j out x hok hx
    obtain ⟨pre, rfl, hpre⟩ := load_tickers_from_json_ok_shape hok
    exact mem_dedupe_normalized hpre x hx
  · intro vals x hx
    exact mem_dedupe_normalized (fun y hy => mem_jsonlScan hy) x hx
  · intro header rows ch out x hok hx
    rcases load_tickers_from_table_ok_shape hok with rfl | ⟨pre, rfl, hpre⟩
    · simp at hx
    · exact mem_dedupe_normalized hpre x hx

/-- Witness for C2 (amended): the symbol parsed from `" btc-usd "` is a
full `_TICKER_RE` match, non-empty, and fixed under normalization. -/
theorem c2_amended_output_normalization_witness :
    tickerFullmatch ("BTC-USD".toList) = true ∧ ("BTC-USD".toList : Str) ≠ [] ∧
    _normalize_symbol ("BTC-USD".toList) = "BTC-USD".toList :=
  c2_amended_output_normalization.1 (" btc-usd \n".toList) ("BTC-USD".toList) (by decide)

/-- C4: after comment skipping, prefix stripping and dash truncation, a
line with one of the delimiters `,`, `|`, `;`, tab (the first present in
that fixed check order) is split on it and every trimmed piece fully
matching `_TICKER_RE` is kept; a line with none of them contributes at
most one symbol, the first whitespace token fully matching `_TICKER_RE`. -/
theorem c4_delimiter_split_rule :
    (∀ line sep, textDelims.find? (fun d => line.contains d) = some sep →
      lineSymbols line =
        (((splitOnChar sep line).map pstrip).filter tickerFullmatch).map _normalize_symbol) ∧
    (∀ line, textDelims.find? (fun d => line.contains d) = none →
      lineSymbols line
          = ((splitWs line).find? tickerFullmatch).toList.map _normalize_symbol ∧
        (lineSymbols line).length ≤ 1) := by
  constructor
  · intro line sep hfind
    unfold lineSymbols
    rw [hfind]
    change ((((splitOnChar sep line).map pstrip).filter
      (fun p => p ≠ [])).filter tickerFullmatch).map _normalize_symbol = _
    rw [filter_fullmatch_collapse]
  · intro line hfind
    unfold lineSymbols
    rw [hfind]
    cases htok : (splitWs line).find? tickerFullmatch with
    | some tok => exact ⟨rfl, by simp⟩
    | none => exact ⟨rfl, by simp⟩

/-- Witness for C4: the delimiter branch on `"A,B"` (split on the comma)
and the whitespace branch on `"A B"`. -/
theorem c4_delimiter_split_rule_witness :
    (lineSymbols ("A,B".toList) =
      (((splitOnChar ',' ("A,B".toList)).map pstrip).filter tickerFullmatch).map
        _normalize_symbol) ∧
    (lineSymbols ("A B".toList)
        = ((splitWs ("A B".toList)).find? tickerFullmatch).toList.map _normalize_symbol ∧
      (lineSymbols ("A B".toList)).length ≤ 1) :=
  ⟨c4_delimiter_split_rule.1 ("A,B".toList) ',' (by decide),
   c4_delimiter_split_rule.2 ("A B".toList) (by decide)⟩

/-- C5: the dash rule runs before the delimiter-split and whitespace-token
rules, unconditionally (even when the line contains commas or the other
delimiters): a processed line truncates at the first `" - "` when the
stripped left part is non-empty, keeps the line when the left part strips
to nothing, and is untouched when `" - "` does not occur; Scenario B's
input yields `["AAPL", "MSFT"]`. -/
theorem c5_dash_truncation_rule :
    (∀ raw, pstrip raw ≠ [] → (pstrip raw).head? ≠ some '#' →
      processLine raw = lineSymbols (dashTrunc (bulletSub (numPrefixSub (pstrip raw))))) ∧
    (∀ t, (breakOn (' ' :: '-' :: ' ' :: []) t).isSome = true ↔
      (' ' :: '-' :: ' ' :: []) <:+: t) ∧
    (∀ t l r, breakOn (' ' :: '-' :: ' ' :: []) t = some (l, r) → pstrip l ≠ [] →
      dashTrunc t = pstrip l) ∧
    (∀ t l r, breakOn (' ' :: '-' :: ' ' :: []) t = some (l, r) → pstrip l = [] →
      dashTrunc t = t) ∧
    (∀ t, breakOn (' ' :: '-' :: ' ' :: []) t = none → dashTrunc t = t) ∧
    load_tickers_from_text ("AAPL - Apple Inc.\nMSFT - Microsoft\n".toList)
      = ["AAPL".toList, "MSFT".toList] := by
  refine ⟨?_, ?_, ?_, ?_, ?_, by decide⟩
  · intro raw h1 h2
    unfold processLine
    rw [if_neg (by rw [not_or]; exact ⟨h1, h2⟩)]
  · intro t
    exact breakOn_isSome_iff_infix (by decide) t
  · intro t l r hb hne
    unfold dashTrunc
    rw [hb]
    change (if pstrip l ≠ [] then pstrip l else t) = pstrip l
    rw [if_pos hne]
  · intro t l r hb hnil
    unfold dashTrunc
    rw [hb]
    change (if pstrip l ≠ [] then pstrip l else t) = t
    rw [if_neg (fun hc => hc hnil)]
  · intro t hb
    unfold dashTrunc
    rw [hb]

/-- Witness for C5: truncation on `"AAPL - Apple Inc."` keeps `"AAPL"`. -/
theorem c5_dash_truncation_rule_witness :
    dashTrunc ("AAPL - Apple Inc.".toList) = pstrip ("AAPL".toList) :=
  c5_dash_truncation_rule.2.2.1 ("AAPL - Apple Inc.".toList) ("AAPL".toList)
    ("Apple Inc.".toList) (by rfl) (by decide)

/-- The column-selection step for an explicit hint, by cases (definitional
unfolding of `selectSeries`). -/
theorem selectSeries_some_hint (header : List Str) (rows : List (List Str))
    (hint : Str) :
    selectSeries header rows (some hint) =
      match pyInt hint with
      | some i => ilocColumn header rows i
      | none =>
        if header.contains hint then Except.ok (namedColumn header rows hint)
        else Except.error (LoadError.columnNotFound header) :=
  rfl

/-- C8 counterexample: on a header-only CSV frame (`df.empty` is true) with
the unresolvable hint `"bogus"`, the loader returns the empty list instead
of failing with `ColumnNotFound`: the `df.empty` short-circuit runs before
any hint validation. -/
theorem c8_counterexample_empty_table_skips_hint_validation :
    load_tickers_from_table ["A".toList] [] (some ("bogus".toList)) = Except.ok [] ∧
    load_tickers_from_table ["A".toList] [] (some ("bogus".toList))
      ≠ Except.error (LoadError.columnNotFound ["A".toList]) := by
  constructor
  · rfl
  · decide

/-- C8 (amended): for every table input with at least one data row and a
column hint, a hint parsing as a Python `int` is used as a (zero-based)
`iloc` column index — even when the hint text is also a header name —
and a hint that neither parses as an `int` nor equals a header fails with
`ColumnNotFound` carrying the available headers; a table with no data rows
instead short-circuits to an empty list before any hint handling. -/
theorem c8_amended_column_hint_resolution :
    (∀ header rows hint, rows ≠ [] →
      load_tickers_from_table header rows (some hint) =
        match pyInt hint with
        | some i =>
          (ilocColumn header rows i).map (fun series => _dedupe (seriesToSyms series))
        | none =>
          if header.contains hint then
            Except.ok (_dedupe (seriesToSyms (namedColumn header rows hint)))
          else Except.error (LoadError.columnNotFound header)) ∧
    (∀ header rows hint, rows ≠ [] → pyInt hint = none → header.contains hint = false →
      load_tickers_from_table header rows (some hint)
        = Except.error (LoadError.columnNotFound header)) ∧
    (∀ header hint, load_tickers_from_table header [] (some hint) = Except.ok []) ∧
    (load_tickers_from_table ["A".toList, "B".toList, "C".toList]
        [["x".toList, "y".toList, "BTC-USD".toList]] (some ("2".toList))
      = Except.ok ["BTC-USD".toList]) ∧
    (load_tickers_from_table ["A".toList, "2".toList, "C".toList]
        [["a".toList, "b".toList, "c".toList]] (some ("2".toList))
      = Except.ok ["C".toList]) := by
  have hmain : ∀ (header : List Str) (rows : List (List Str)) (hint : Str),
      rows ≠ [] →
      load_tickers_from_table header rows (some hint) =
        match pyInt hint with
        | some i =>
          (ilocColumn header rows i).map (fun series => _dedupe (seriesToSyms series))
        | none =>
          if header.contains hint then
            Except.ok (_dedupe (seriesToSyms (namedColumn header rows hint)))
          else Except.error (LoadError.columnNotFound header) := by
    intro header rows hint hrows
    unfold load_tickers_from_table
    rw [if_neg (by simp [List.isEmpty_iff, hrows]), selectSeries_some_hint]
    cases hp : pyInt hint with
    | some i => rfl
    | none =>
      by_cases hc : header.contains hint = true
      · rw [if_pos hc, if_pos hc]
        rfl
      · rw [if_neg hc, if_neg hc]
        rfl
  refine ⟨hmain, ?_, ?_, by rfl, by rfl⟩
  · intro header rows hint hrows hp hc
    rw [hmain header rows hint hrows, hp]
    have h : ¬(header.contains hint = true) := by
      rw [hc]
      exact Bool.false_ne_true
    exact if_neg h
  · intro header hint
    rfl

/-- Witness for C8 (amended): a one-row table with an unresolvable hint
fails with `ColumnNotFound` reporting the headers. -/
theorem c8_amended_column_hint_resolution_witness :
    load_tickers_from_table ["A".toList] [["x".toList]] (some ("bogus".toList))
      = Except.error (LoadError.columnNotFound ["A".toList]) :=
  c8_amended_column_hint_resolution.2.1 ["A".toList] [["x".toList]] ("bogus".toList)
    (by decide) (by rfl) (by decide)

/-- C9 counterexample: the JSON loader raises a parse error on a completely
empty file (the JSON grammar has no empty document), so the empty file is
NOT an empty-list success for every supported format. -/
theorem c9_counterexample_empty_json_file_errors :
    load_tickers_generic ("json".toList) [] none = Except.error LoadError.parseError ∧
    load_tickers_generic ("json".toList) [] none ≠ Except.ok [] := by
  constructor
  · rfl
  · decide

/-- C9 (amended): an empty plain-text or JSON-lines file parses to an empty
list without error, and a plain-text file whose lines are all blank or
`#`-comments parses to an empty list (an empty result is not an error at
the parser layer); the JSON and CSV loaders, however, fail on a completely
empty file at the parse step (`JSONDecodeError` / `EmptyDataError`). -/
theorem c9_amended_empty_inputs :
    load_tickers_from_text [] = [] ∧
    loadJsonlContent [] = Except.ok [] ∧
    (∀ content,
      ((splitlines content).all
        (fun l => pstrip l == [] || (pstrip l).head? == some '#')) = true →
      load_tickers_from_text content = []) ∧
    loadJsonContent [] = Except.error LoadError.parseError ∧
    (∀ sep ch, loadTableContent [] sep ch = Except.error LoadError.emptyDataError) := by
  refine ⟨rfl, rfl, ?_, rfl, fun sep ch => rfl⟩
  intro content hall
  have hscan : textScan content = [] := by
    unfold textScan
    rw [List.flatMap_eq_nil_iff]
    intro l hl
    have hline := List.all_eq_true.mp hall l hl
    rw [Bool.or_eq_true, beq_iff_eq, beq_iff_eq] at hline
    unfold processLine
    rw [if_pos hline]
  rw [load_tickers_from_text, hscan]
  rfl

/-- Witness for C9 (amended): a file with one comment line and blank lines
parses to the empty list. -/
theorem c9_amended_empty_inputs_witness :
    load_tickers_from_text ("# comment\n\n   \n".toList) = [] :=
  c9_amended_empty_inputs.2.2.1 ("# comment\n\n   \n".toList) (by decide)
